import Mathlib

/-
  Verification of the wav streaming adapter (pipelined/wav).

  The repository adapts a black-box WAV container decoder/encoder to a
  pull/push streaming pipeline.  We embed the adapter closures from
  src/wav.go (both historical halves of the file) as pure Lean functions:
  the container decoder becomes explicit state (a list of remaining
  interleaved PCM samples plus an optional pending read error), float64
  arithmetic is modelled in the rationals (all values the theorems touch
  are dyadic and exact in float64), and Go errors become an inductive
  sentinel type.
-/

namespace Wav

/-- Go error values that appear in the adapter code paths:
    io.EOF, io.ErrUnexpectedEOF, ErrInvalidWav, the wrapped decoder read
    error, and the UnsupportedBitDepth value of the bit-depth policy. -/
inductive GoError where
  | eof
  | unexpectedEOF
  | invalidWav
  | unsupportedBitDepth
  | readErr (code : Nat)
  | writeErr (code : Nat)
deriving DecidableEq

/-- Modelled from the spec (section 4.2): per-sample decode normalization of
    the signal package (not under src, an external collaborator).  For
    signed depths the sample is divided by 2^(depth-1); for the unsigned
    depth the range is remapped by the fixed offset, at depth 8 this is
    (sample - 128) / 128. -/
def intToFloat (d : Nat) (unsigned : Bool) (s : Int) : ℚ :=
  if unsigned then ((s : ℚ) - 2 ^ (d - 1)) / 2 ^ (d - 1)
  else (s : ℚ) / 2 ^ (d - 1)

/-- Modelled from the spec (section 4.2): per-sample encode, multiplying by
    the same normalization constant and rounding to the nearest integer,
    re-applying the unsigned offset for the unsigned depth. -/
def floatToInt (d : Nat) (unsigned : Bool) (x : ℚ) : Int :=
  if unsigned then round (x * 2 ^ (d - 1)) + 2 ^ (d - 1)
  else round (x * 2 ^ (d - 1))

/-- The signedness flag computed at stream open: bitDepth == BitDepth8
    (src/wav.go lines 52-55, 106-109, 162, 250). -/
def unsignedFor (d : Nat) : Bool := d == 8

/-- A float sample already quantized to the resolution of depth d:
    an integer multiple of the quantization step 1 / 2^(d-1). -/
def quant (d : Nat) (k : Int) : ℚ := (k : ℚ) / 2 ^ (d - 1)

/-- Modelled from the spec (section 4.2): the deinterleaving performed by
    the signal package conversion, frame i and channel c taken from PCM
    index i * channels + c.  Channel-major output, one list per channel. -/
def deinterleave (ch : Nat) (data : List Int) : List (List Int) :=
  (List.range ch).map fun c =>
    (List.range (data.length / ch)).map fun i => data.getD (i * ch + c) 0

/-- Modelled from the spec (section 4.2): the interleaving performed by the
    signal package on the encode side, PCM index j taken from channel
    j % ch, frame j / ch. -/
def interleave (ch frames : Nat) (chans : List (List Int)) : List Int :=
  (List.range (frames * ch)).map fun j => (chans.getD (j % ch) []).getD (j / ch) 0

/-- Modelled from the spec: signal.InterInt.AsFloat64 — deinterleave the
    flat PCM slice and normalize every sample (src/wav.go lines 75-81 build
    the InterInt value and invoke this conversion). -/
def asFloat64 (ch d : Nat) (unsigned : Bool) (data : List Int) : List (List ℚ) :=
  (deinterleave ch data).map (List.map (intToFloat d unsigned))

/-- signal.Float64.Size: the frame count of a channel-major float buffer,
    the length of its first channel. -/
def floatSize (b : List (List ℚ)) : Nat := (b.headD []).length

/-- The external container decoder (go-audio/wav), reduced to the state the
    adapter observes: channel count, bit depth, the interleaved PCM samples
    not yet read, and an optional pending read error. -/
structure Decoder where
  channels : Nat
  bitDepth : Nat
  remaining : List Int
  pendingErr : Option Nat
deriving DecidableEq

/-- Decoder.PCMBuffer: reads up to cap samples into the scratch buffer and
    returns how much was read; a read failure surfaces as an error, zero
    samples read signals natural end of stream. -/
def Decoder.pcmBuffer (dec : Decoder) (cap : Nat) : Except Nat (List Int) × Decoder :=
  match dec.pendingErr with
  | some e => (.error e, dec)
  | none => (.ok (dec.remaining.take cap), { dec with remaining := dec.remaining.drop cap })

/-- State captured by the Pump closure of src/wav.go lines 61-87: the
    decoder and the reusable scratch PCM slice ib.Data. -/
structure PumpState where
  dec : Decoder
  ibData : List Int
deriving DecidableEq

/-- The reallocation condition of src/wav.go line 62, exactly as written:
    len(ib.Data) != bufferSize.  The slice itself is allocated with
    bufferSize * numChannels elements (line 63). -/
def reallocTaken (ibData : List Int) (bufferSize : Nat) : Bool :=
  ibData.length != bufferSize

/-- The scratch buffer after the reallocation check of src/wav.go 62-64. -/
def pumpRealloc (ibData : List Int) (bufferSize ch : Nat) : List Int :=
  if reallocTaken ibData bufferSize then List.replicate (bufferSize * ch) 0 else ibData

/-- One pull of the closure returned by Pump.Pump (src/wav.go lines 61-87):
    reallocate the scratch buffer when its length differs from bufferSize,
    read PCM, return io.EOF on a zero read, convert the read prefix to a
    channel-major float buffer, and attach io.ErrUnexpectedEOF when the
    produced buffer is shorter than bufferSize. -/
def pump_pull (s : PumpState) (bufferSize : Nat) :
    (Option (List (List ℚ)) × Option GoError) × PumpState :=
  let ib := pumpRealloc s.ibData bufferSize s.dec.channels
  match s.dec.pcmBuffer ib.length with
  | (.error e, dec2) => ((none, some (.readErr e)), ⟨dec2, ib⟩)
  | (.ok data, dec2) =>
    if data.length = 0 then ((none, some .eof), ⟨dec2, ib⟩)
    else
      let b := asFloat64 s.dec.channels s.dec.bitDepth (unsignedFor s.dec.bitDepth) data
      if floatSize b ≠ bufferSize then ((some b, some .unexpectedEOF), ⟨dec2, ib⟩)
      else ((some b, none), ⟨dec2, ib⟩)

/-- The pump state after k pulls of capacity bufferSize. -/
def pump_iter (s : PumpState) (bufferSize : Nat) : Nat → PumpState
  | 0 => s
  | k + 1 => (pump_pull (pump_iter s bufferSize k) bufferSize).2

/-- The output of pull number k (zero-indexed) when the pump is driven with
    a constant capacity. -/
def pump_out (s : PumpState) (bufferSize k : Nat) :
    Option (List (List ℚ)) × Option GoError :=
  (pump_pull (pump_iter s bufferSize k) bufferSize).1

/-- The representation variant selected once at stream open
    (src/wav.go lines 160-166 and 248-254): the unsigned sample view for
    bit depth 8, the signed view otherwise. -/
inductive SampleVariant where
  | unsignedV
  | signedV
deriving DecidableEq

/-- The variant selection of the Source allocator, src/wav.go lines 162-166. -/
def Source_select (bitDepth : Nat) : SampleVariant :=
  if bitDepth = 8 then .unsignedV else .signedV

/-- One pull of the sourceSigned closure (src/wav.go lines 177-199): read
    PCM (a failure is wrapped and surfaced), a zero read returns io.EOF
    with no frames, otherwise the read samples are written into the signed
    scratch signal (signal.WriteInt converts read samples into frames,
    capped by the scratch length) and converted to floating
    (signal.SignedAsFloating converts the common frame count); the frame
    count produced is returned with a nil error. -/
def sourceSigned_pull (dec : Decoder) (pcmCap signedLen floatingLen : Nat) :
    (Nat × Option GoError) × Decoder :=
  match dec.pcmBuffer pcmCap with
  | (.error e, dec2) => ((0, some (.readErr e)), dec2)
  | (.ok data, dec2) =>
    if data.length = 0 then ((0, some .eof), dec2)
    else
      let read := min (data.length / dec.channels) signedLen
      ((min read floatingLen, none), dec2)

/-- The configured sink the Sink allocator of src/wav.go lines 224-260
    returns: the selected sample variant, the bit depth handed to the
    container encoder, and the allocated PCM scratch length
    bufferSize * channels (line 240). -/
structure SinkRepr where
  variant : SampleVariant
  encDepth : Int
  pcmLen : Nat
deriving DecidableEq

/-- The Sink allocator, src/wav.go lines 224-260: builds the container
    encoder with the given bit depth, allocates the PCM scratch and the
    signal buffers, selects the unsigned variant for depth 8, and returns
    successfully.  No validation of the bit depth is performed anywhere in
    this function. -/
def Sink_allocate (bitDepth : Int) (bufferSize channels : Nat) : Except GoError SinkRepr :=
  .ok { variant := if bitDepth = 8 then .unsignedV else .signedV
        encDepth := bitDepth
        pcmLen := bufferSize * channels }

/-- Modelled from the spec (section 4.1): the bit-depth policy
    validate(depth) -> Ok | UnsupportedBitDepth with supported set exactly
    8, 16, 24, 32.  The policy function (Supported.BitDepth of historical
    versions) is absent from src — only the supported struct declaration
    (src/wav.go lines 35-37) and a test caller remain. -/
def validateBitDepth (d : Int) : Except GoError Unit :=
  if d = 8 ∨ d = 16 ∨ d = 24 ∨ d = 32 then .ok () else .error .unsupportedBitDepth

/-- One push of the sinkSigned closure (src/wav.go lines 262-277).
    staleInts is the content the signed scratch signal holds beyond the
    frames freshly converted this push; stale is the PCM scratch slice
    contents left from earlier pushes.  signal.FloatingAsSigned converts
    min(incoming frames, scratch frames) frames and returns that count n;
    when n differs from the scratch frame count the PCM slice is truncated
    to channels * n; signal.ReadInt then interleaves the signed scratch
    into the (possibly truncated) PCM slice, which is written to the
    encoder; the deferred statement restores the full slice afterwards.
    Returns (data written to the encoder, scratch contents afterwards). -/
def sinkSigned_push (d ch bufSize : Nat) (staleInts : Nat → Nat → Int)
    (stale : List Int) (floats : Nat → Nat → ℚ) (frames : Nat) :
    List Int × List Int :=
  let m := min frames bufSize
  let ints : Nat → Nat → Int := fun c i =>
    if i < m then floatToInt d false (floats c i) else staleInts c i
  let data := if m ≠ bufSize then stale.take (ch * m) else stale
  let written := (List.range data.length).map fun j => ints (j % ch) (j / ch)
  (written, if m ≠ bufSize then written ++ stale.drop (ch * m) else written)

/-- The external container encoder, reduced to what Flush observes: the
    result its Close method reports (none on success). -/
structure EncoderModel where
  closeErr : Option Nat
deriving DecidableEq

/-- What a call to Sink.Flush does (src/wav.go lines 90-93, return
    s.e.Close()): with no encoder assigned the nil pointer is dereferenced
    and the call panics; otherwise the Close result is forwarded. -/
inductive FlushOutcome where
  | nilPanic
  | returned (err : Option Nat)
deriving DecidableEq

/-- The Sink struct of src/wav.go lines 29-33: the encoder field e is a
    pointer, nil until the Sink method assigns it (line 97). -/
structure SinkState where
  e : Option EncoderModel
deriving DecidableEq

/-- Sink.Flush, src/wav.go lines 90-93: returns s.e.Close(); a nil e is a
    nil pointer dereference, a runtime panic rather than a returned error. -/
def Sink_Flush (s : SinkState) : FlushOutcome :=
  match s.e with
  | none => .nilPanic
  | some enc => .returned enc.closeErr

/-- The effect of the Sink allocator method on the struct
    (src/wav.go line 97): it assigns the freshly built encoder to e. -/
def Sink_assign (_s : SinkState) (enc : EncoderModel) : SinkState :=
  { e := some enc }

/-- Pump.Pump header validation, src/wav.go lines 42-45: an invalid header
    fails with ErrInvalidWav and no pull closure is produced; otherwise the
    initial pump state is returned (scratch not yet allocated). -/
def Pump_open (headerValid : Bool) (dec : Decoder) : Except GoError PumpState :=
  if headerValid then .ok ⟨dec, []⟩ else .error .invalidWav

/-! ## Helper lemmas -/

lemma getD_map_range {α : Type} (n i : Nat) (f : Nat → α) (dflt : α) (h : i < n) :
    ((List.range n).map f).getD i dflt = f i := by
  rw [List.getD_eq_getElem?_getD]
  simp [List.getElem?_map, List.getElem?_range, h]

lemma length_deinterleave (ch : Nat) (data : List Int) :
    (deinterleave ch data).length = ch := by
  simp [deinterleave]

lemma mem_deinterleave_length (ch : Nat) (data : List Int) (l : List Int)
    (hl : l ∈ deinterleave ch data) : l.length = data.length / ch := by
  simp only [deinterleave, List.mem_map, List.mem_range] at hl
  obtain ⟨c, _, rfl⟩ := hl
  simp

lemma length_asFloat64 (ch d : Nat) (u : Bool) (data : List Int) :
    (asFloat64 ch d u data).length = ch := by
  simp [asFloat64, length_deinterleave]

lemma mem_asFloat64_length (ch d : Nat) (u : Bool) (data : List Int) (l : List ℚ)
    (hl : l ∈ asFloat64 ch d u data) : l.length = data.length / ch := by
  simp only [asFloat64, List.mem_map] at hl
  obtain ⟨l2, hl2, rfl⟩ := hl
  simp [mem_deinterleave_length ch data l2 hl2]

lemma floatSize_asFloat64 (ch d : Nat) (u : Bool) (data : List Int) (hch : 1 ≤ ch) :
    floatSize (asFloat64 ch d u data) = data.length / ch := by
  obtain ⟨k, rfl⟩ : ∃ k, ch = k + 1 := ⟨ch - 1, by omega⟩
  simp [floatSize, asFloat64, deinterleave, List.range_succ_eq_map]

lemma roundtrip_exact (d : Nat) (b : Bool) (k : Int) :
    intToFloat d b (floatToInt d b (quant d k)) = quant d k := by
  have h2 : (2 : ℚ) ^ (d - 1) ≠ 0 := by positivity
  have hq : quant d k * 2 ^ (d - 1) = (k : ℚ) := div_mul_cancel₀ _ h2
  cases b with
  | false =>
    show (↑(round (quant d k * 2 ^ (d - 1))) : ℚ) / 2 ^ (d - 1) = quant d k
    rw [hq, round_intCast, quant]
  | true =>
    show ((↑(round (quant d k * 2 ^ (d - 1)) + 2 ^ (d - 1)) : ℚ) - 2 ^ (d - 1)) / 2 ^ (d - 1)
        = quant d k
    rw [hq, round_intCast, quant]
    push_cast
    ring

/-- The round-trip property at one depth: a float already quantized to the
    resolution of depth d survives encode-then-decode within one
    quantization step. -/
def RoundTrip (d : Nat) : Prop :=
  ∀ k : Int,
    |intToFloat d (unsignedFor d) (floatToInt d (unsignedFor d) (quant d k)) - quant d k|
      ≤ 1 / 2 ^ (d - 1)

/-! ## Claim theorems -/

/-- C1 counterexample: configuring the Sink with bit depth 64 succeeds —
    the allocator returns a configured sink and no error at all, in
    particular not UnsupportedBitDepth. -/
theorem sink_allocate_64_succeeds :
    Sink_allocate 64 512 2 = .ok ⟨.signedV, 64, 1024⟩ ∧
    ∀ e : GoError, Sink_allocate 64 512 2 ≠ .error e := by
  refine ⟨rfl, ?_⟩
  intro e h
  simp [Sink_allocate] at h

/-- C1 (amended): the Sink allocator performs no bit-depth validation and
    never fails, for unsupported and supported depths alike; only the
    standalone bit-depth policy rejects depths, and it rejects exactly the
    values outside 8, 16, 24, 32 with UnsupportedBitDepth. -/
theorem sink_bitdepth_policy :
    (∀ (d : Int) (bs ch : Nat), ∃ r, Sink_allocate d bs ch = .ok r) ∧
    (∀ d : Int, validateBitDepth d = .ok () ↔ (d = 8 ∨ d = 16 ∨ d = 24 ∨ d = 32)) ∧
    validateBitDepth 64 = .error .unsupportedBitDepth ∧
    validateBitDepth 0 = .error .unsupportedBitDepth ∧
    validateBitDepth (-16) = .error .unsupportedBitDepth := by
  refine ⟨fun d bs ch => ⟨_, rfl⟩, ?_, rfl, rfl, rfl⟩
  intro d
  unfold validateBitDepth
  split <;> simp_all

/-- C3: the unsigned sample representation is selected if and only if the
    bit depth is 8; the 8-bit decode mapping sends PCM sample s to
    (s - 128) / 128, so sample 128 decodes to 0 and float 0 encodes to
    byte 128. -/
theorem unsigned_iff_8bit :
    (∀ d : Nat, Source_select d = .unsignedV ↔ d = 8) ∧
    (∀ s : Int, intToFloat 8 (unsignedFor 8) s = ((s : ℚ) - 128) / 128) ∧
    intToFloat 8 (unsignedFor 8) 128 = 0 ∧
    floatToInt 8 (unsignedFor 8) 0 = 128 := by
  refine ⟨?_, ?_, ?_, ?_⟩
  · intro d
    unfold Source_select
    split <;> simp_all
  · intro s
    norm_num [intToFloat, unsignedFor]
  · norm_num [intToFloat, unsignedFor]
  · norm_num [floatToInt, unsignedFor]

/-- C4: when the container decoder yields zero frames, the pull adapters
    (both the Pump closure and sourceSigned) return the io.EOF sentinel
    with no floating data and zero frames; the sentinel is distinct from
    the invalid-container error, from every wrapped read failure, and from
    the unsupported-bit-depth error. -/
theorem pull_end_of_stream (ch bd C pcmCap sl fl : Nat) (ib : List Int) :
    (pump_pull ⟨⟨ch, bd, [], none⟩, ib⟩ C).1 = (none, some .eof) ∧
    (sourceSigned_pull ⟨ch, bd, [], none⟩ pcmCap sl fl).1 = (0, some .eof) ∧
    GoError.eof ≠ GoError.invalidWav ∧
    (∀ e, GoError.eof ≠ GoError.readErr e) ∧
    GoError.eof ≠ GoError.unsupportedBitDepth := by
  refine ⟨?_, ?_, by decide, fun e => by simp, by decide⟩
  · simp [pump_pull, Decoder.pcmBuffer]
  · simp [sourceSigned_pull, Decoder.pcmBuffer]

/-- C5: for every supported depth and every float already quantized to that
    resolution, decode of encode is within one quantization step (here it
    is exact); for 8-bit, float 0 encodes to byte 128 exactly. -/
theorem roundtrip_all_depths :
    RoundTrip 8 ∧ RoundTrip 16 ∧ RoundTrip 24 ∧ RoundTrip 32 ∧
    floatToInt 8 (unsignedFor 8) 0 = 128 := by
  refine ⟨?_, ?_, ?_, ?_, by norm_num [floatToInt, unsignedFor]⟩ <;>
    · intro k
      rw [roundtrip_exact, sub_self, abs_zero]
      positivity

/-- C10: calling Flush before the encoder was ever assigned dereferences
    the nil encoder pointer — a runtime panic, distinct from every returned
    error; after the Sink method has assigned the encoder, Flush merely
    forwards the Close result of the encoder. -/
theorem flush_nil_encoder (enc : EncoderModel) (s : SinkState) :
    Sink_Flush ⟨none⟩ = .nilPanic ∧
    (∀ r, FlushOutcome.nilPanic ≠ .returned r) ∧
    Sink_Flush (Sink_assign s enc) = .returned enc.closeErr := by
  exact ⟨rfl, fun r => by simp, rfl⟩

lemma deinterleave_getD (ch frames : Nat) (pcm : List Int) (c i : Nat)
    (hch : 1 ≤ ch) (hlen : pcm.length = frames * ch) (hc : c < ch) (hi : i < frames) :
    ((deinterleave ch pcm).getD c []).getD i 0 = pcm.getD (i * ch + c) 0 := by
  have hf : pcm.length / ch = frames := by
    rw [hlen]
    exact Nat.mul_div_cancel frames (by omega)
  unfold deinterleave
  rw [getD_map_range ch c _ _ hc, hf, getD_map_range frames i _ _ hi]

/-- C6: decode places the PCM sample at flat index i*ch + c into channel c,
    frame i of the channel-major buffer, and encode inverts the
    deinterleaving exactly, reproducing the interleaved sequence. -/
theorem deinterleave_interleave (ch frames : Nat) (pcm : List Int)
    (hch : 1 ≤ ch) (hlen : pcm.length = frames * ch) :
    (∀ c < ch, ∀ i < frames,
      ((deinterleave ch pcm).getD c []).getD i 0 = pcm.getD (i * ch + c) 0) ∧
    interleave ch frames (deinterleave ch pcm) = pcm := by
  constructor
  · intro c hc i hi
    exact deinterleave_getD ch frames pcm c i hch hlen hc hi
  · apply List.ext_getElem
    · simp [interleave, hlen]
    · intro j h1 h2
      simp only [interleave, List.getElem_map, List.getElem_range]
      have hj : j < frames * ch := by simpa [interleave] using h1
      have hmod : j % ch < ch := Nat.mod_lt _ (by omega)
      have hdiv : j / ch < frames := (Nat.div_lt_iff_lt_mul (by omega)).2 hj
      rw [deinterleave_getD ch frames pcm (j % ch) (j / ch) hch hlen hmod hdiv]
      have hjj : j / ch * ch + j % ch = j := by
        rw [Nat.mul_comm]
        exact Nat.div_add_mod j ch
      rw [hjj, List.getD_eq_getElem pcm 0 h2]

theorem deinterleave_interleave_witness :
    (1 ≤ 2 ∧ ([10, 20, 30, 40] : List Int).length = 2 * 2) ∧
    ((∀ c < 2, ∀ i < 2,
        ((deinterleave 2 [10, 20, 30, 40]).getD c []).getD i 0
          = ([10, 20, 30, 40] : List Int).getD (i * 2 + c) 0) ∧
      interleave 2 2 (deinterleave 2 [10, 20, 30, 40]) = [10, 20, 30, 40]) :=
  ⟨⟨by decide, by decide⟩,
    deinterleave_interleave 2 2 [10, 20, 30, 40] (by decide) (by decide)⟩

/-- C7: on a push of n frames into a sink whose scratch holds bufSize
    frames, the PCM slice handed to the container encoder has exactly
    ch * n samples and every one of them is the fresh conversion of the
    incoming floats — no trailing stale samples from a larger earlier
    buffer survive, whatever the stale scratch contents were. -/
theorem sink_push_no_stale (d ch bufSize n : Nat) (staleInts : Nat → Nat → Int)
    (stale : List Int) (floats : Nat → Nat → ℚ)
    (hch : 1 ≤ ch) (hlen : stale.length = ch * bufSize) (hn : n ≤ bufSize) :
    (sinkSigned_push d ch bufSize staleInts stale floats n).1.length = ch * n ∧
    ∀ j < ch * n,
      (sinkSigned_push d ch bufSize staleInts stale floats n).1.getD j 0
        = floatToInt d false (floats (j % ch) (j / ch)) := by
  have hm : min n bufSize = n := Nat.min_eq_left hn
  have hdata : (if min n bufSize ≠ bufSize then stale.take (ch * min n bufSize) else stale).length
      = ch * n := by
    rw [hm]
    split
    · simp only [List.length_take, hlen]
      have hle : ch * n ≤ ch * bufSize := Nat.mul_le_mul_left ch hn
      omega
    · next h =>
      have hnb : n = bufSize := by omega
      rw [hlen, hnb]
  constructor
  · simp only [sinkSigned_push, List.length_map, List.length_range]
    exact hdata
  · intro j hj
    simp only [sinkSigned_push]
    rw [hdata, getD_map_range _ j _ _ hj]
    have hdd : j / ch < min n bufSize := by
      rw [hm]
      exact (Nat.div_lt_iff_lt_mul (by omega)).2 (by rwa [Nat.mul_comm ch n] at hj)
    rw [if_pos hdd]

theorem sink_push_no_stale_witness :
    (1 ≤ 2 ∧ ([7, 7, 7, 7, 7, 7] : List Int).length = 2 * 3 ∧ 2 ≤ 3) ∧
    ((sinkSigned_push 16 2 3 (fun _ _ => 99) [7, 7, 7, 7, 7, 7] (fun _ _ => 0) 2).1.length
        = 2 * 2 ∧
      ∀ j < 2 * 2,
        (sinkSigned_push 16 2 3 (fun _ _ => 99) [7, 7, 7, 7, 7, 7] (fun _ _ => 0) 2).1.getD j 0
          = floatToInt 16 false 0) :=
  ⟨⟨by decide, by decide, by decide⟩,
    sink_push_no_stale 16 2 3 2 (fun _ _ => 99) [7, 7, 7, 7, 7, 7] (fun _ _ => 0)
      (by decide) (by decide) (by decide)⟩

/-- C8 (code bug): on a 2-channel stream pulled twice with the same
    requested size 4, the first pull leaves a scratch of
    bufferSize * channels = 8 samples, and the second pull — same requested
    size — still takes the reallocation branch, because line 62 compares
    len(ib.Data) (samples) against bufferSize (frames).  In general a
    scratch of length bufferSize * channels never passes the equality test
    once channels ≥ 2, so every steady-state pull reallocates. -/
theorem pump_realloc_branch_bug :
    (pump_iter ⟨⟨2, 16, List.replicate 16 0, none⟩, []⟩ 4 1).ibData.length = 8 ∧
    reallocTaken (pump_iter ⟨⟨2, 16, List.replicate 16 0, none⟩, []⟩ 4 1).ibData 4 = true ∧
    (∀ ch C : Nat, reallocTaken (List.replicate ((C + 1) * (ch + 2)) 0) (C + 1) = true) := by
  refine ⟨by decide, by decide, ?_⟩
  intro ch C
  simp only [reallocTaken, List.length_replicate, bne_iff_ne, ne_eq]
  intro h
  have h2 : (C + 1) * (ch + 2) = (C + 1) * 1 := by omega
  have := Nat.eq_of_mul_eq_mul_left (by omega : 0 < C + 1) h2
  omega

/-- C9 counterexample: drive a one-frame, one-channel pump with capacity 1.
    Pull number 1 (zero-indexed) reads zero frames and signals
    end-of-stream, so the decoder is exhausted; pull number 2 — the pull
    the claim is about — returns io.EOF again: the very end-of-stream
    sentinel, not a state error distinct from it. -/
theorem pull_after_exhausted_returns_eof :
    pump_out ⟨⟨1, 16, [5], none⟩, []⟩ 1 1 = (none, some .eof) ∧
    pump_out ⟨⟨1, 16, [5], none⟩, []⟩ 1 2 = (none, some .eof) := by
  constructor <;> rfl

/-- C9 (amended): the decoder adapter has no state machine.  Every pull on
    an exhausted decoder returns the end-of-stream sentinel io.EOF again,
    with no data, and leaves the decoder unchanged; a failed open returns
    ErrInvalidWav and produces no pull closure at all (pulling a
    never-opened Pump would be a nil dereference, not a returned error). -/
theorem pull_exhausted_and_unopened (ch bd C : Nat) (ib : List Int) (dec : Decoder) :
    (pump_pull ⟨⟨ch, bd, [], none⟩, ib⟩ C).1 = (none, some .eof) ∧
    (pump_pull ⟨⟨ch, bd, [], none⟩, ib⟩ C).2.dec = ⟨ch, bd, [], none⟩ ∧
    Pump_open false dec = .error .invalidWav := by
  refine ⟨?_, ?_, rfl⟩ <;> simp [pump_pull, Decoder.pcmBuffer]

/-! ## Driving the pump: short-buffer discipline -/

lemma realloc_length (ib : List Int) (C ch : Nat) (hC : 1 ≤ C)
    (hib : ib.length = 0 ∨ ib.length = C * ch) :
    (pumpRealloc ib C ch).length = C * ch := by
  unfold pumpRealloc reallocTaken
  split
  · simp
  · next h2 =>
    simp only [bne_iff_ne, ne_eq, not_not] at h2
    rcases hib with h | h
    · omega
    · exact h

lemma pump_pull_eval (ch bd C : Nat) (rem ib : List Int) :
    pump_pull ⟨⟨ch, bd, rem, none⟩, ib⟩ C
      = (if (rem.take (pumpRealloc ib C ch).length).length = 0
         then ((none, some .eof),
               ⟨⟨ch, bd, rem.drop (pumpRealloc ib C ch).length, none⟩, pumpRealloc ib C ch⟩)
         else if floatSize (asFloat64 ch bd (unsignedFor bd)
                  (rem.take (pumpRealloc ib C ch).length)) ≠ C
         then ((some (asFloat64 ch bd (unsignedFor bd)
                  (rem.take (pumpRealloc ib C ch).length)), some .unexpectedEOF),
               ⟨⟨ch, bd, rem.drop (pumpRealloc ib C ch).length, none⟩, pumpRealloc ib C ch⟩)
         else ((some (asFloat64 ch bd (unsignedFor bd)
                  (rem.take (pumpRealloc ib C ch).length)), none),
               ⟨⟨ch, bd, rem.drop (pumpRealloc ib C ch).length, none⟩, pumpRealloc ib C ch⟩)) :=
  rfl

lemma pump_pull_full (ch C m bd : Nat) (rem ib : List Int)
    (hch : 1 ≤ ch) (hC : 1 ≤ C) (hm : C ≤ m)
    (hrem : rem.length = m * ch) (hib : ib.length = 0 ∨ ib.length = C * ch) :
    pump_pull ⟨⟨ch, bd, rem, none⟩, ib⟩ C
      = ((some (asFloat64 ch bd (unsignedFor bd) (rem.take (C * ch))), none),
          ⟨⟨ch, bd, rem.drop (C * ch), none⟩, pumpRealloc ib C ch⟩) ∧
    (asFloat64 ch bd (unsignedFor bd) (rem.take (C * ch))).length = ch ∧
    (∀ l ∈ asFloat64 ch bd (unsignedFor bd) (rem.take (C * ch)), l.length = C) := by
  have hlen2 : (pumpRealloc ib C ch).length = C * ch := realloc_length ib C ch hC hib
  have htake : (rem.take (C * ch)).length = C * ch := by
    rw [List.length_take, hrem]
    have : C * ch ≤ m * ch := Nat.mul_le_mul_right ch hm
    omega
  have hfs : floatSize (asFloat64 ch bd (unsignedFor bd) (rem.take (C * ch))) = C := by
    rw [floatSize_asFloat64 _ _ _ _ hch, htake, Nat.mul_div_cancel C (by omega)]
  refine ⟨?_, length_asFloat64 _ _ _ _, ?_⟩
  · rw [pump_pull_eval, hlen2,
      if_neg (by rw [htake]; exact Nat.mul_ne_zero (by omega) (by omega)),
      if_neg (by rw [hfs]; omega)]
  · intro l hl
    rw [mem_asFloat64_length _ _ _ _ l hl, htake, Nat.mul_div_cancel C (by omega)]

lemma pump_pull_short (ch C m bd : Nat) (rem ib : List Int)
    (hch : 1 ≤ ch) (hC : 1 ≤ C) (hm0 : 0 < m) (hm : m < C)
    (hrem : rem.length = m * ch) (hib : ib.length = 0 ∨ ib.length = C * ch) :
    pump_pull ⟨⟨ch, bd, rem, none⟩, ib⟩ C
      = ((some (asFloat64 ch bd (unsignedFor bd) (rem.take (C * ch))), some .unexpectedEOF),
          ⟨⟨ch, bd, rem.drop (C * ch), none⟩, pumpRealloc ib C ch⟩) ∧
    (asFloat64 ch bd (unsignedFor bd) (rem.take (C * ch))).length = ch ∧
    (∀ l ∈ asFloat64 ch bd (unsignedFor bd) (rem.take (C * ch)), l.length = m) := by
  have hlen2 : (pumpRealloc ib C ch).length = C * ch := realloc_length ib C ch hC hib
  have htake : (rem.take (C * ch)).length = m * ch := by
    rw [List.length_take, hrem]
    have : m * ch ≤ C * ch := Nat.mul_le_mul_right ch (by omega)
    omega
  have hfs : floatSize (asFloat64 ch bd (unsignedFor bd) (rem.take (C * ch))) = m := by
    rw [floatSize_asFloat64 _ _ _ _ hch, htake, Nat.mul_div_cancel m (by omega)]
  refine ⟨?_, length_asFloat64 _ _ _ _, ?_⟩
  · rw [pump_pull_eval, hlen2,
      if_neg (by rw [htake]; exact Nat.mul_ne_zero (by omega) (by omega)),
      if_pos (by rw [hfs]; omega)]
  · intro l hl
    rw [mem_asFloat64_length _ _ _ _ l hl, htake, Nat.mul_div_cancel m (by omega)]

lemma pump_iter_shift (s : PumpState) (C k : Nat) :
    pump_iter s C (k + 1) = pump_iter ((pump_pull s C).2) C k := by
  induction k with
  | zero => rfl
  | succ k ih =>
    show (pump_pull (pump_iter s C (k + 1)) C).2
        = (pump_pull (pump_iter ((pump_pull s C).2) C k) C).2
    rw [ih]

lemma pump_out_shift (s : PumpState) (C k : Nat) :
    pump_out s C (k + 1) = pump_out ((pump_pull s C).2) C k := by
  unfold pump_out
  rw [pump_iter_shift]

lemma pump_drive_spec (q : Nat) : ∀ (r ch C bd : Nat) (rem ib : List Int),
    1 ≤ ch → 1 ≤ C → r < C →
    rem.length = (q * C + r) * ch →
    (ib.length = 0 ∨ ib.length = C * ch) →
    (∀ i < q, ∃ b, pump_out ⟨⟨ch, bd, rem, none⟩, ib⟩ C i = (some b, none) ∧
        b.length = ch ∧ ∀ l ∈ b, l.length = C) ∧
    (0 < r → ∃ b, pump_out ⟨⟨ch, bd, rem, none⟩, ib⟩ C q = (some b, some .unexpectedEOF) ∧
        b.length = ch ∧ ∀ l ∈ b, l.length = r) := by
  induction q with
  | zero =>
    intro r ch C bd rem ib hch hC hr hrem hib
    refine ⟨fun i hi => absurd hi (Nat.not_lt_zero i), fun hr0 => ?_⟩
    obtain ⟨heq, hlen, hmem⟩ :=
      pump_pull_short ch C r bd rem ib hch hC hr0 hr (by simpa using hrem) hib
    refine ⟨_, ?_, hlen, hmem⟩
    simp only [pump_out, pump_iter, heq]
  | succ q ih =>
    intro r ch C bd rem ib hch hC hr hrem hib
    have hmC : C ≤ (q + 1) * C + r := by
      have : C ≤ (q + 1) * C := Nat.le_mul_of_pos_left C (by omega)
      omega
    obtain ⟨heq, hlen0, hmem0⟩ := pump_pull_full ch C ((q + 1) * C + r) bd rem ib hch hC hmC hrem hib
    have hrem2 : (rem.drop (C * ch)).length = (q * C + r) * ch := by
      rw [List.length_drop, hrem]
      have hexp : ((q + 1) * C + r) * ch = (q * C + r) * ch + C * ch := by ring
      omega
    have hib2 : (pumpRealloc ib C ch).length = 0 ∨ (pumpRealloc ib C ch).length = C * ch :=
      Or.inr (realloc_length ib C ch hC hib)
    have hIH := ih r ch C bd (rem.drop (C * ch)) (pumpRealloc ib C ch) hch hC hr hrem2 hib2
    constructor
    · intro i hi
      cases i with
      | zero =>
        refine ⟨_, ?_, hlen0, hmem0⟩
        simp only [pump_out, pump_iter, heq]
      | succ i =>
        rw [pump_out_shift, heq]
        exact hIH.1 i (by omega)
    · intro hr0
      rw [pump_out_shift, heq]
      exact hIH.2 hr0

/-- C2: driving the pump with capacity C over a source of N frames with
    N mod C nonzero yields floor(N / C) buffers of exactly C frames each
    with a nil error, then one final buffer of exactly N mod C frames —
    every channel trimmed to that frame count — carried alongside the
    distinct short-buffer signal io.ErrUnexpectedEOF. -/
theorem pump_short_buffer (N C ch q r bd : Nat) (pcm : List Int)
    (hch : 1 ≤ ch) (hC : 1 ≤ C) (hN : N = q * C + r) (hr : r < C) (hr0 : 0 < r)
    (hpcm : pcm.length = N * ch) :
    N / C = q ∧ N % C = r ∧
    (∀ i < N / C, ∃ b, pump_out ⟨⟨ch, bd, pcm, none⟩, []⟩ C i = (some b, none) ∧
        b.length = ch ∧ ∀ l ∈ b, l.length = C) ∧
    (∃ b, pump_out ⟨⟨ch, bd, pcm, none⟩, []⟩ C (N / C) = (some b, some .unexpectedEOF) ∧
        b.length = ch ∧ ∀ l ∈ b, l.length = N % C) := by
  have h1 : N = r + C * q := by rw [hN]; ring
  have hdiv : N / C = q := by
    rw [h1, Nat.add_mul_div_left r q (by omega), Nat.div_eq_of_lt hr]
    omega
  have hmod : N % C = r := by
    rw [h1, Nat.add_mul_mod_self_left, Nat.mod_eq_of_lt hr]
  have hspec := pump_drive_spec q r ch C bd pcm [] hch hC hr (by rw [hpcm, hN]) (Or.inl rfl)
  rw [hdiv, hmod]
  exact ⟨rfl, rfl, hspec.1, hspec.2 hr0⟩

theorem pump_short_buffer_witness :
    (1 ≤ 2 ∧ 5 = 2 * 2 + 1 ∧ 1 < 2 ∧ 0 < 1 ∧ (List.replicate 10 (0 : Int)).length = 5 * 2) ∧
    (5 / 2 = 2 ∧ 5 % 2 = 1 ∧
      (∀ i < 5 / 2, ∃ b,
          pump_out ⟨⟨2, 16, List.replicate 10 0, none⟩, []⟩ 2 i = (some b, none) ∧
          b.length = 2 ∧ ∀ l ∈ b, l.length = 2) ∧
      (∃ b, pump_out ⟨⟨2, 16, List.replicate 10 0, none⟩, []⟩ 2 (5 / 2)
          = (some b, some .unexpectedEOF) ∧ b.length = 2 ∧ ∀ l ∈ b, l.length = 5 % 2)) :=
  ⟨⟨by decide, by decide, by decide, by decide, by decide⟩,
    pump_short_buffer 5 2 2 2 1 16 (List.replicate 10 0) (by decide) (by decide) (by decide)
      (by decide) (by decide) (by decide)⟩

end Wav
